import Mathlib

/-!
Shallow embedding of `src/server.py` together with the Python 3.11
standard-library code the script delegates to
(`http.server.SimpleHTTPRequestHandler`, `http.server.ThreadingHTTPServer`,
`socketserver.TCPServer`, `urllib.parse`, `posixpath`, `html`).

Modelling conventions:
- Python `str` values that stand for URL paths, file names and HTML are
  modelled as `List Char`; each `Char` stands for one byte (the handler
  operates byte-wise on percent-decoded paths; all names in scope are ASCII).
- Response bodies are byte lists (`List Nat`), produced from file contents
  or by encoding generated HTML character-wise (`Char.toNat`), matching
  `str.encode` for ASCII text.
- The filesystem is an explicit finite tree; there are no symbolic links
  (`os.path.islink` is constantly false on such trees) and no mid-request
  mutation, so the `fstat`/racy-deletion paths of the source cannot fire.
- Wall-clock data (`Date`, `Last-Modified` headers, `If-Modified-Since`
  handling) is not modelled: the requests considered carry no conditional
  headers, under which the source's conditional branch is inert.
-/

namespace StaticServer

/-! ### Python string primitives (byte-wise) -/

/-- Python `s.split(c, 1)[0]`: everything before the first occurrence of `c`
(the whole string when `c` does not occur). -/
def takeBefore (c : Char) (l : List Char) : List Char :=
  l.takeWhile (· != c)

/-- Python `s.split(c, 1)[1]`-like tail: everything after the first
occurrence of `c` (empty when `c` does not occur). -/
def dropThrough (c : Char) (l : List Char) : List Char :=
  (l.dropWhile (· != c)).drop 1

/-- The whitespace set of Python `str.rstrip()` (ASCII part; the handler
paths in scope contain no non-ASCII whitespace). -/
def pySpace (c : Char) : Bool :=
  c == ' ' || c == '\t' || c == '\n' || c == '\r' || c == Char.ofNat 11 || c == Char.ofNat 12

/-- Python `str.rstrip()`. -/
def rstrip (l : List Char) : List Char :=
  (l.reverse.dropWhile pySpace).reverse

/-- Python `s.endswith(c)` for a one-character suffix. -/
def endsWithChar (c : Char) (l : List Char) : Bool :=
  l.getLast? == some c

def isHexDigitCh (c : Char) : Bool :=
  c.isDigit || ('a' ≤ c && c ≤ 'f') || ('A' ≤ c && c ≤ 'F')

def hexVal (c : Char) : Nat :=
  if c.isDigit then c.toNat - '0'.toNat
  else if 'a' ≤ c && c ≤ 'f' then c.toNat - 'a'.toNat + 10
  else c.toNat - 'A'.toNat + 10

/-- `urllib.parse.unquote` at the byte level: each `%XX` hex escape becomes
the byte `XX`; a `%` not followed by two hex digits is kept literally. -/
def unquote : List Char → List Char
  | '%' :: a :: b :: rest =>
    if isHexDigitCh a && isHexDigitCh b then
      Char.ofNat (16 * hexVal a + hexVal b) :: unquote rest
    else
      '%' :: unquote (a :: b :: rest)
  | c :: rest => c :: unquote rest
  | [] => []

/-- Python `s.split(sep)` for a one-character separator (`str.split` with an
explicit separator keeps empty fields). -/
def splitOnChar (sep : Char) : List Char → List (List Char)
  | [] => [[]]
  | c :: cs =>
    if c == sep then [] :: splitOnChar sep cs
    else
      match splitOnChar sep cs with
      | [] => [[c]]
      | g :: gs => (c :: g) :: gs

/-- Python `sep.join(groups)` for a one-character separator. -/
def joinSep (sep : Char) : List (List Char) → List Char
  | [] => []
  | [g] => g
  | g :: gs => g ++ sep :: joinSep sep gs

/-! ### `posixpath.normpath` (Python 3.11, pure-Python definition) -/

/-- The component loop of `posixpath.normpath`: skip `''` and `'.'`; keep a
component unless it is `'..'` that cancels against a previous component. -/
def normLoop (initialSlashes : Nat) : List (List Char) → List (List Char) → List (List Char)
  | acc, [] => acc
  | acc, comp :: comps =>
    if comp = [] ∨ comp = ['.'] then
      normLoop initialSlashes acc comps
    else if comp ≠ ['.', '.'] ∨ (initialSlashes = 0 ∧ acc = []) ∨
        (acc ≠ [] ∧ acc.getLast? = some ['.', '.']) then
      normLoop initialSlashes (acc ++ [comp]) comps
    else if acc ≠ [] then
      normLoop initialSlashes acc.dropLast comps
    else
      normLoop initialSlashes acc comps

/-- `posixpath.normpath`. -/
def normpath (l : List Char) : List Char :=
  if l = [] then ['.']
  else
    let initialSlashes : Nat :=
      if l.take 1 = ['/'] then
        if l.take 2 = ['/', '/'] ∧ l.take 3 ≠ ['/', '/', '/'] then 2 else 1
      else 0
    let comps := normLoop initialSlashes [] (splitOnChar '/' l)
    let path := List.replicate initialSlashes '/' ++ joinSep '/' comps
    if path = [] then ['.'] else path

/-! ### `urllib.parse`: `urlsplit`, `urlunsplit`, `quote` -/

structure UrlParts where
  scheme : List Char
  netloc : List Char
  path : List Char
  query : List Char
  fragment : List Char
deriving Repr, DecidableEq

/-- `_UNSAFE_URL_BYTES_TO_REMOVE`: tab, CR and LF are deleted from the URL
before parsing. -/
def removedUrlChar (c : Char) : Bool :=
  c == '\t' || c == '\r' || c == '\n'

/-- `scheme_chars`: letters, digits and `+`, `-`, `.`. -/
def schemeCharOk (c : Char) : Bool :=
  c.isAlphanum || c == '+' || c == '-' || c == '.'

/-- `urllib.parse.urlsplit` for `str` input with the default empty scheme.
The `ValueError` raise for bracket-mismatched IPv6 netlocs and the NFKC
netloc audit are omitted: they only reject inputs, and no request path in
scope contains `[`, `]` or non-ASCII netloc characters. -/
def urlsplit (u0 : List Char) : UrlParts :=
  let u1 := u0.filter (fun c => !removedUrlChar c)
  let schemeSplit : List Char × List Char :=
    match u1.findIdx? (· == ':') with
    | some i =>
      if 0 < i ∧ (u1.headD ' ').isAlpha ∧ (u1.take i).all schemeCharOk then
        ((u1.take i).map Char.toLower, u1.drop (i + 1))
      else ([], u1)
    | none => ([], u1)
  let scheme := schemeSplit.1
  let u2 := schemeSplit.2
  let netlocSplit : List Char × List Char :=
    if u2.take 2 = ['/', '/'] then
      let rest := u2.drop 2
      let n := rest.takeWhile (fun c => !(c == '/' || c == '?' || c == '#'))
      (n, rest.drop n.length)
    else ([], u2)
  let netloc := netlocSplit.1
  let u3 := netlocSplit.2
  let fragment := dropThrough '#' u3
  let u4 := takeBefore '#' u3
  let query := dropThrough '?' u4
  let u5 := takeBefore '?' u4
  ⟨scheme, netloc, u5, query, fragment⟩

/-- `urllib.parse.uses_netloc`. -/
def usesNetloc : List (List Char) :=
  ["".data, "ftp".data, "http".data, "gopher".data, "nntp".data, "telnet".data,
   "imap".data, "wais".data, "file".data, "mms".data, "https".data, "shttp".data,
   "snews".data, "prospero".data, "rtsp".data, "rtspu".data, "rsync".data,
   "svn".data, "svn+ssh".data, "sftp".data, "nfs".data, "git".data, "git+ssh".data,
   "ws".data, "wss".data]

/-- `urllib.parse.urlunsplit`. -/
def urlunsplit (p : UrlParts) : List Char :=
  let url0 := p.path
  let url1 :=
    if p.netloc ≠ [] ∨ (p.scheme ≠ [] ∧ p.scheme ∈ usesNetloc ∧ url0.take 2 ≠ ['/', '/']) then
      let u := if url0 ≠ [] ∧ url0.take 1 ≠ ['/'] then '/' :: url0 else url0
      ['/', '/'] ++ p.netloc ++ u
    else url0
  let url2 := if p.scheme ≠ [] then p.scheme ++ ':' :: url1 else url1
  let url3 := if p.query ≠ [] then url2 ++ '?' :: p.query else url2
  if p.fragment ≠ [] then url3 ++ '#' :: p.fragment else url3

/-- `html.escape(s, quote=False)`: replace `&`, `<`, `>` by entities. -/
def escapeHtml (l : List Char) : List Char :=
  (l.map fun c =>
    if c == '&' then "&amp;".data
    else if c == '<' then "&lt;".data
    else if c == '>' then "&gt;".data
    else [c]).flatten

/-- The characters `urllib.parse.quote` never escapes
(letters, digits, `_.-~`), plus the default `safe='/'`. -/
def quoteSafeChar (c : Char) : Bool :=
  c.isAlphanum || c == '_' || c == '.' || c == '-' || c == '~' || c == '/'

def hexDigitUpper (n : Nat) : Char :=
  if n < 10 then Char.ofNat ('0'.toNat + n) else Char.ofNat ('A'.toNat + n - 10)

/-- `urllib.parse.quote(s)` at the byte level. -/
def quoteUrl (l : List Char) : List Char :=
  (l.map fun c =>
    if quoteSafeChar c then [c]
    else ['%', hexDigitUpper (c.toNat / 16 % 16), hexDigitUpper (c.toNat % 16)]).flatten

/-! ### Filesystem model

A finite read-only directory tree.  The serving root is the node the
process's working directory denotes; surrounding filesystem content is
irrelevant to the handler, which (as proved below) only ever forms paths
made of plain components under the root. -/

inductive FSNode where
  | file (content : List Nat)
  | dir (entries : List (List Char × FSNode))

def lookupName (n : List Char) : List (List Char × FSNode) → Option FSNode
  | [] => none
  | (k, v) :: es => if k = n then some v else lookupName n es

/-- Follow a component list downward from a node. -/
def FSNode.resolve : FSNode → List (List Char) → Option FSNode
  | n, [] => some n
  | .file _, _ :: _ => none
  | .dir es, w :: ws =>
    match lookupName w es with
    | some child => child.resolve ws
    | none => none

/-! ### `SimpleHTTPRequestHandler.translate_path`

The source resolves against `self.directory` (the working directory) by
`os.path.join`-ing simple components onto it.  The model returns the
root-relative component list plus the explicit-trailing-slash flag; the
OS-path string it denotes is `directory/w1/.../wn` (`+ '/'` when trailing). -/

structure TPath where
  words : List (List Char)
  trailing : Bool
deriving Repr, DecidableEq

/-- The loop guard of `translate_path`: a component is dropped when
`os.path.dirname(word)` is non-empty (i.e. it contains `/`) or it is
`os.curdir`/`os.pardir`. -/
def isSimpleComponent (w : List Char) : Bool :=
  !(w.contains '/' || w == ['.'] || w == ['.', '.'])

/-- The first two lines of `translate_path`: abandon the query string and
the fragment. -/
def stripQueryFrag (l : List Char) : List Char :=
  takeBefore '#' (takeBefore '?' l)

/-- `translate_path` after the query/fragment strip: record the explicit
trailing slash, unquote, normalize, then keep only the simple components. -/
def translate_core (p2 : List Char) : TPath :=
  let trailing := endsWithChar '/' (rstrip p2)
  let p4 := normpath (unquote p2)
  let ws := (splitOnChar '/' p4).filter (· ≠ [])
  ⟨ws.filter isSimpleComponent, trailing⟩

def translate_path (p : String) : TPath :=
  translate_core (stripQueryFrag p.data)

/-- The OS-path string a `TPath` denotes, relative to the serving root
(the constant `self.directory` prefix carries no information the handler
uses beyond rooting the path, so it is dropped; `guess_type` reads only the
final component). -/
def osPathStr (t : TPath) : List Char :=
  joinSep '/' t.words ++ (if t.trailing then ['/'] else [])

/-! ### OS calls on the tree -/

/-- `os.path.isdir`: a trailing slash is accepted on directories, and a
non-directory resolution (including a slash-suffixed file) is not a
directory. -/
def isdir (root : FSNode) (t : TPath) : Bool :=
  match root.resolve t.words with
  | some (.dir _) => true
  | _ => false

/-- `os.path.isfile`: true only for a regular file named without a trailing
slash (`stat` on `file/` fails with `ENOTDIR`). -/
def isfile (root : FSNode) (t : TPath) : Bool :=
  if t.trailing then false
  else
    match root.resolve t.words with
    | some (.file _) => true
    | _ => false

/-- `open(path, 'rb')`: fails (`OSError`) on a missing path, on a
directory (`EISDIR`) and on a slash-suffixed file (`ENOTDIR`). -/
def openFile (root : FSNode) (t : TPath) : Option (List Nat) :=
  if t.trailing then none
  else
    match root.resolve t.words with
    | some (.file bs) => some bs
    | _ => none

/-- `os.listdir`: the entry list of a directory. -/
def listdir (root : FSNode) (t : TPath) : Option (List (List Char × FSNode)) :=
  match root.resolve t.words with
  | some (.dir es) => some es
  | _ => none

/-! ### `BaseHTTPRequestHandler.send_error` -/

structure Response where
  status : Nat
  headers : List (String × String)
  body : List Nat
deriving Repr, DecidableEq

/-- `str.encode` for the ASCII/byte-wise text the handler generates. -/
def encodeStr (l : List Char) : List Nat := l.map Char.toNat

/-- The rows of `BaseHTTPRequestHandler.responses` (from `http.HTTPStatus`)
for the codes this handler can emit. -/
def responsesTable (code : Nat) : String × String :=
  if code = 200 then ("OK", "Request fulfilled, document follows")
  else if code = 301 then ("Moved Permanently", "Object moved permanently -- see URI list")
  else if code = 404 then ("Not Found", "Nothing matches the given URI")
  else if code = 501 then ("Not Implemented", "Server does not support this operation")
  else ("???", "???")

/-- `DEFAULT_ERROR_MESSAGE % {code, message, explain}` with the HTML-escaped
message and explanation. -/
def errorBodyHtml (code : Nat) (message explain : String) : List Char :=
  ("<!DOCTYPE HTML>\n<html lang=\"en\">\n    <head>\n        <meta charset=\"utf-8\">\n"
    ++ "        <title>Error response</title>\n    </head>\n    <body>\n"
    ++ "        <h1>Error response</h1>\n        <p>Error code: " ++ toString code
    ++ "</p>\n        <p>Message: ").data
  ++ escapeHtml message.data
  ++ (".</p>\n        <p>Error code explanation: " ++ toString code ++ " - ").data
  ++ escapeHtml explain.data
  ++ (".</p>\n    </body>\n</html>\n").data

/-- `send_error(code, message)` (the `Server`/`Date` headers, which carry
wall-clock data, are not modelled). -/
def send_error (method : String) (code : Nat) (message : Option String) : Response :=
  let row := responsesTable code
  let msg := message.getD row.1
  let explain := row.2
  let hasBody := 200 ≤ code ∧ code ≠ 204 ∧ code ≠ 205 ∧ code ≠ 304
  let body := encodeStr (errorBodyHtml code msg explain)
  { status := code
    headers := [("Connection", "close")] ++
      (if hasBody then
        [("Content-Type", "text/html;charset=utf-8"),
         ("Content-Length", toString body.length)]
      else [])
    body := if method ≠ "HEAD" ∧ hasBody then body else [] }

/-! ### `SimpleHTTPRequestHandler.guess_type` -/

def assocLookup {α β : Type} [DecidableEq α] (k : α) : List (α × β) → Option β
  | [] => none
  | (k', v) :: es => if k' = k then some v else assocLookup k es

/-- `posixpath.splitext` on the final path component: the extension starts
at the last dot, unless every character before it in the component is a
dot (so dotfiles such as `.bashrc` have no extension). -/
def lastIdxOf (c : Char) (l : List Char) : Option Nat :=
  match l.reverse.findIdx? (· == c) with
  | some j => some (l.length - 1 - j)
  | none => none

def extOfName (name : List Char) : List Char :=
  match lastIdxOf '.' name with
  | none => []
  | some i => if (name.take i).all (· == '.') then [] else name.drop i

def splitextExt (p : List Char) : List Char :=
  extOfName ((splitOnChar '/' p).getLastD [])

/-- `SimpleHTTPRequestHandler.extensions_map` (Python 3.11). -/
def extensions_map : List (List Char × String) :=
  [(".gz".data, "application/gzip"),
   (".Z".data, "application/octet-stream"),
   (".bz2".data, "application/x-bzip2"),
   (".xz".data, "application/x-xz")]

def lowerChars (l : List Char) : List Char := l.map Char.toLower

/-- `guess_type`: the class map on the extension (verbatim then lowercased),
then `mimetypes.guess_type` — a system-configured, extension-driven table
abstracted as the parameter `mimeGuess` — then the generic binary type. -/
def guess_type (mimeGuess : List Char → Option String) (path : List Char) : String :=
  let ext := splitextExt path
  match assocLookup ext extensions_map with
  | some t => t
  | none =>
    match assocLookup (lowerChars ext) extensions_map with
    | some t => t
    | none =>
      match mimeGuess path with
      | some g => g
      | none => "application/octet-stream"

/-! ### `SimpleHTTPRequestHandler.list_directory` -/

/-- Lexicographic (code-point) order on byte strings, as Python `<` on
`str`. -/
def lexLe : List Char → List Char → Bool
  | [], _ => true
  | _ :: _, [] => false
  | a :: as, b :: bs =>
    if a.toNat < b.toNat then true
    else if b.toNat < a.toNat then false
    else lexLe as bs

def sortKeyLe (a b : List Char) : Bool := lexLe (lowerChars a) (lowerChars b)

/-- Stable insertion sort; Python's `list.sort(key=str.lower)` is a stable
sort by the same key and therefore produces the same output list. -/
def insSorted (x : List Char) : List (List Char) → List (List Char)
  | [] => [x]
  | y :: ys => if sortKeyLe y x then y :: insSorted x ys else x :: y :: ys

def sortNames : List (List Char) → List (List Char)
  | [] => []
  | x :: xs => insSorted x (sortNames xs)

/-- One `<li>` line of the generated listing.  `os.path.isdir(fullname)`
decorates directory entries with `/`; `os.path.islink` is constantly false
on the symlink-free trees modelled here. -/
def entryLine (es : List (List Char × FSNode)) (name : List Char) : List Char :=
  let isDirEntry : Bool :=
    match lookupName name es with
    | some (.dir _) => true
    | _ => false
  let displayname := if isDirEntry then name ++ ['/'] else name
  let linkname := if isDirEntry then name ++ ['/'] else name
  "<li><a href=\"".data ++ quoteUrl linkname ++ "\">".data
    ++ escapeHtml displayname ++ "</a></li>".data

/-- The lines joined by `'\n'.join(r)`.  `sys.getfilesystemencoding()` is
`utf-8`.  Note the title embeds the unquoted `self.path` — query string and
fragment included. -/
def listingLines (reqPath : String) (es : List (List Char × FSNode)) : List (List Char) :=
  let displaypath := escapeHtml (unquote reqPath.data)
  let title := "Directory listing for ".data ++ displaypath
  ["<!DOCTYPE HTML>".data,
   "<html lang=\"en\">".data,
   "<head>".data,
   "<meta charset=\"utf-8\">".data,
   "<title>".data ++ title ++ "</title>\n</head>".data,
   "<body>\n<h1>".data ++ title ++ "</h1>".data,
   "<hr>\n<ul>".data]
  ++ (sortNames (es.map Prod.fst)).map (entryLine es)
  ++ ["</ul>\n<hr>\n</body>\n</html>\n".data]

def listingBody (reqPath : String) (es : List (List Char × FSNode)) : List Nat :=
  encodeStr (joinSep '\n' (listingLines reqPath es))

def list_directory (reqPath : String) (es : List (List Char × FSNode)) : Response :=
  let encoded := listingBody reqPath es
  { status := 200
    headers := [("Content-type", "text/html; charset=utf-8"),
                ("Content-Length", toString encoded.length)]
    body := encoded }

/-! ### `SimpleHTTPRequestHandler.send_head` / `do_GET` / `do_HEAD` -/

/-- The index-file loop: the first of `index.html`, `index.htm` that
`os.path.isfile` accepts under the directory. -/
def indexCandidates : List (List Char) := ["index.html".data, "index.htm".data]

def findIndexFile (root : FSNode) (t : TPath) : Option (List Char) :=
  indexCandidates.find? (fun idx => isfile root ⟨t.words ++ [idx], false⟩)

/-- The common file-serving tail of `send_head`: MIME guess, the explicit
trailing-slash 404 check, `open`, then the 200 response with `Content-type`
and `Content-Length` (the `Last-Modified` header, wall-clock data, is not
modelled). -/
def serveFileTail (mimeGuess : List Char → Option String) (root : FSNode)
    (t : TPath) (method : String) : Response :=
  let ctype := guess_type mimeGuess (osPathStr t)
  if endsWithChar '/' (osPathStr t) then
    send_error method 404 (some "File not found")
  else
    match openFile root t with
    | none => send_error method 404 (some "File not found")
    | some bs =>
      { status := 200
        headers := [("Content-type", ctype),
                    ("Content-Length", toString bs.length)]
        body := bs }

def send_head (mimeGuess : List Char → Option String) (root : FSNode)
    (method : String) (reqPath : String) : Response :=
  let t := translate_path reqPath
  if isdir root t then
    let parts := urlsplit reqPath.data
    if !endsWithChar '/' parts.path then
      { status := 301
        headers := [("Location",
                      String.mk (urlunsplit { parts with path := parts.path ++ ['/'] })),
                    ("Content-Length", "0")]
        body := [] }
    else
      match findIndexFile root t with
      | some idx => serveFileTail mimeGuess root ⟨t.words ++ [idx], false⟩ method
      | none =>
        match listdir root t with
        | some es => list_directory reqPath es
        | none => send_error method 404 (some "No permission to list directory")
  else
    serveFileTail mimeGuess root t method

/-- `do_GET`: `send_head` and then the body copy. -/
def do_GET (mimeGuess : List Char → Option String) (root : FSNode) (reqPath : String) : Response :=
  send_head mimeGuess root "GET" reqPath

/-- `do_HEAD`: `send_head` with the body discarded. -/
def do_HEAD (mimeGuess : List Char → Option String) (root : FSNode) (reqPath : String) : Response :=
  let r := send_head mimeGuess root "HEAD" reqPath
  { r with body := [] }

structure Request where
  method : String
  path : String
deriving Repr, DecidableEq

/-- `BaseHTTPRequestHandler` method dispatch: `do_GET`/`do_HEAD` when
defined; otherwise `send_error(501, "Unsupported method (%r)")`. -/
def handleRequest (mimeGuess : List Char → Option String) (root : FSNode)
    (req : Request) : Response :=
  if req.method = "GET" then do_GET mimeGuess root req.path
  else if req.method = "HEAD" then do_HEAD mimeGuess root req.path
  else send_error req.method 501 (some ("Unsupported method ('" ++ req.method ++ "')"))

/-! ### `src/server.py`: the `main` entry point

The straight-line `main` is embedded as a trace of the externally visible
steps it performs.  The environment records the outcomes of the two
fallible external calls: binding the listener (an `OSError` message when
the bind is refused) and `webbrowser.open` (the error a failed launch
raises). -/

inductive Event where
  | evGetcwd (dir : String)
  | evBind (host : String) (port : Nat)
  | evServerClose
  | evPrint (line : String)
  | evBrowserOpen (url : String)
  | evServeForever
deriving Repr, DecidableEq

inductive RunOutcome where
  | fatal (exitCode : Nat) (diagnostic : String)
  | serving
deriving Repr, DecidableEq

structure Env where
  cwd : String
  bindError : Option String
  browserError : Option String

def HOST : String := "127.0.0.1"
def PORT : Nat := 8000

/-- `socketserver.TCPServer.__init__` with `bind_and_activate=True`:
`server_bind`; on failure `server_close` runs and the `OSError` re-raises,
so no listener is left open. -/
def bindListener (env : Env) : List Event × Option String :=
  match env.bindError with
  | none => ([.evBind HOST PORT], none)
  | some e => ([.evBind HOST PORT, .evServerClose], some e)

/-- `try: webbrowser.open(url) except Exception: pass` — any error the
launch raises is caught and discarded. -/
def tryOpenBrowser (env : Env) (url : String) : List Event :=
  match env.browserError with
  | none => [.evBrowserOpen url]
  | some _ => [.evBrowserOpen url]

/-- `main()`: `os.getcwd()`; construct/bind `ThreadingHTTPServer` (an
uncaught `OSError` terminates CPython with exit status 1 and a traceback
diagnostic); print the serving line; best-effort browser launch; then
`serve_forever()`. -/
def mainRun (env : Env) : List Event × RunOutcome :=
  let cwd := env.cwd
  let bindStep := bindListener env
  match bindStep.2 with
  | some e =>
    (Event.evGetcwd cwd :: bindStep.1, .fatal 1 ("Traceback: OSError: " ++ e))
  | none =>
    let url := "http://" ++ HOST ++ ":" ++ toString PORT ++ "/"
    let line := "Serving '" ++ cwd ++ "' at " ++ url
    (Event.evGetcwd cwd :: bindStep.1
      ++ [Event.evPrint line] ++ tryOpenBrowser env url ++ [Event.evServeForever],
     .serving)

/-- The request-serving loop of `ThreadingHTTPServer.serve_forever`: each
accepted request is answered by the handler; `handleRequest` is a total
function, so every per-request outcome is an HTTP response and the loop
continues past it. -/
def serveRequests (mimeGuess : List Char → Option String) (root : FSNode)
    (reqs : List Request) : List Response :=
  reqs.map (handleRequest mimeGuess root)

/-- A full run: the startup trace plus, once serving, the responses to a
stream of requests (none when startup was fatal). -/
def runProgram (env : Env) (mimeGuess : List Char → Option String) (root : FSNode)
    (reqs : List Request) : List Event × RunOutcome × List Response :=
  let m := mainRun env
  match m.2 with
  | .fatal c d => (m.1, .fatal c d, [])
  | .serving => (m.1, .serving, serveRequests mimeGuess root reqs)

/-! ### Origin-form request paths

An HTTP request line carries an origin-form target: it starts with `/`, and
the claims below consider targets that carry no query, fragment, scheme
colon, netloc prefix or stripped control characters, so that `urlsplit`
leaves the path intact. -/

def OriginPath (p : String) : Prop :=
  p.data.take 1 = ['/'] ∧ p.data.take 2 ≠ ['/', '/'] ∧
    ∀ c ∈ p.data, c ≠ ':' ∧ c ≠ '?' ∧ c ≠ '#' ∧ removedUrlChar c = false

instance (p : String) : Decidable (OriginPath p) := by
  unfold OriginPath
  infer_instance

/-! ### Concrete fixtures -/

/-- A MIME table with no entries: every lookup falls back. -/
def mimeNone : List Char → Option String := fun _ => none

/-- A small serving root: a text file, an index file, an empty
subdirectory, a directory with an index, and a directory without one. -/
def fsDemo : FSNode :=
  .dir [("a.txt".data, .file [104, 105]),
        ("index.html".data, .file [60, 98, 62]),
        ("sub".data, .dir []),
        ("pub".data, .dir [("index.html".data, .file [60, 105, 62])]),
        ("lst".data, .dir [("x.txt".data, .file [65]), ("y".data, .dir [])])]

/-- The startup trace's print events. -/
def isPrintEvent : Event → Bool
  | .evPrint _ => true
  | _ => false

/-! ### Helper lemmas: list and string plumbing -/

theorem takeWhile_append_of_all {p : Char → Bool} {l m : List Char}
    (h : ∀ x ∈ l, p x) : (l ++ m).takeWhile p = l ++ m.takeWhile p := by
  induction l with
  | nil => rfl
  | cons x xs ih =>
    have hx := h x (by simp)
    simp [List.takeWhile_cons, hx, ih (fun y hy => h y (by simp [hy]))]

theorem dropWhile_append_of_all {p : Char → Bool} {l m : List Char}
    (h : ∀ x ∈ l, p x) : (l ++ m).dropWhile p = m.dropWhile p := by
  induction l with
  | nil => rfl
  | cons x xs ih =>
    have hx := h x (by simp)
    simp [List.dropWhile_cons, hx, ih (fun y hy => h y (by simp [hy]))]

theorem takeBefore_append {c : Char} {l m : List Char} (h : c ∉ l) :
    takeBefore c (l ++ m) = l ++ takeBefore c m := by
  unfold takeBefore
  refine takeWhile_append_of_all (fun x hx => ?_)
  simp only [bne_iff_ne, ne_eq]
  intro he
  exact h (he ▸ hx)

theorem takeBefore_eq_self {c : Char} {l : List Char} (h : c ∉ l) :
    takeBefore c l = l := by
  unfold takeBefore
  rw [List.takeWhile_eq_self_iff]
  intro x hx
  simp only [bne_iff_ne, ne_eq]
  intro he
  exact h (he ▸ hx)

theorem dropThrough_eq_nil {c : Char} {l : List Char} (h : c ∉ l) :
    dropThrough c l = [] := by
  unfold dropThrough
  rw [show l.dropWhile (· != c) = [] from ?_]
  · rfl
  · rw [List.dropWhile_eq_nil_iff]
    intro x hx
    simp only [bne_iff_ne, ne_eq]
    intro he
    exact h (he ▸ hx)

theorem takeBefore_cons_self (c : Char) (r : List Char) :
    takeBefore c (c :: r) = [] := by
  simp [takeBefore, List.takeWhile_cons]

theorem filter_eq_self_of_all {p : Char → Bool} {l : List Char}
    (h : ∀ x ∈ l, p x) : l.filter p = l := by
  rw [List.filter_eq_self]; exact h

theorem findIdxQ_colon_none {l : List Char} (h : ':' ∉ l) :
    l.findIdx? (· == ':') = none := by
  rw [List.findIdx?_eq_none_iff]
  intro x hx
  simp only [beq_eq_false_iff_ne, ne_eq]
  intro he
  exact h (he ▸ hx)

theorem endsWithChar_false_of_not_mem {c : Char} {l : List Char} (h : c ∉ l) :
    endsWithChar c l = false := by
  unfold endsWithChar
  cases hl : l.getLast? with
  | none => rfl
  | some a =>
    have ha : a ∈ l := List.mem_of_mem_getLast? (by rw [hl]; rfl)
    simp only [beq_eq_false_iff_ne, ne_eq, Option.some.injEq]
    intro he
    exact h (he ▸ ha)

theorem joinSep_ne_nil {w : List Char} {ws : List (List Char)} (hw : w ≠ []) :
    joinSep '/' (w :: ws) ≠ [] := by
  cases ws with
  | nil => simpa [joinSep] using hw
  | cons w' ws' => simp [joinSep]

theorem joinSep_no_trailing_slash {ws : List (List Char)}
    (h : ∀ w ∈ ws, w ≠ [] ∧ w.contains '/' = false) :
    endsWithChar '/' (joinSep '/' ws) = false := by
  induction ws with
  | nil => rfl
  | cons w rest ih =>
    cases rest with
    | nil =>
      have hw := h w (by simp)
      show endsWithChar '/' w = false
      apply endsWithChar_false_of_not_mem
      have : ¬ '/' ∈ w := by simpa using hw.2
      exact this
    | cons w' rest' =>
      have hw' : w' ≠ [] := (h w' (by simp)).1
      have hrest := ih (fun x hx => h x (by simp [hx]))
      show endsWithChar '/' (w ++ '/' :: joinSep '/' (w' :: rest')) = false
      unfold endsWithChar at hrest ⊢
      rw [List.getLast?_append_of_ne_nil _ (by simp)]
      rw [show ('/' :: joinSep '/' (w' :: rest')) = ['/'] ++ joinSep '/' (w' :: rest') from rfl]
      rw [List.getLast?_append_of_ne_nil _ (joinSep_ne_nil hw')]
      exact hrest

/-! ### Helper lemmas: the handler model -/

/-- Every component `translate_path` produces is a plain name: non-empty,
not `.`, not `..`, and free of `/`. -/
theorem translate_words_simple (p : String) :
    ∀ w ∈ (translate_path p).words, w ≠ [] ∧ isSimpleComponent w = true := by
  intro w hw
  unfold translate_path translate_core at hw
  simp only [List.mem_filter] at hw
  exact ⟨by simpa using hw.1.2, hw.2⟩

theorem simple_no_slash {w : List Char} (h : isSimpleComponent w = true) :
    w.contains '/' = false := by
  unfold isSimpleComponent at h
  simp only [Bool.not_eq_eq_eq_not, Bool.not_true, Bool.or_eq_false_iff] at h
  exact h.1.1

theorem osPathStr_no_slash {t : TPath} (htr : t.trailing = false)
    (h : ∀ w ∈ t.words, w ≠ [] ∧ isSimpleComponent w = true) :
    endsWithChar '/' (osPathStr t) = false := by
  unfold osPathStr
  rw [htr]
  simp only [if_neg Bool.false_ne_true, List.append_nil]
  exact joinSep_no_trailing_slash
    (fun w hw => ⟨(h w hw).1, simple_no_slash (h w hw).2⟩)

theorem FSNode.resolve_append (n : FSNode) (ws ws' : List (List Char)) :
    n.resolve (ws ++ ws') = (n.resolve ws).bind (fun m => m.resolve ws') := by
  induction ws generalizing n with
  | nil => simp [FSNode.resolve]
  | cons w rest ih =>
    cases n with
    | file bs => simp [FSNode.resolve]
    | dir es =>
      simp only [List.cons_append, FSNode.resolve]
      cases lookupName w es with
      | none => simp
      | some child => exact ih child

theorem send_error_status (m : String) (c : Nat) (msg : Option String) :
    (send_error m c msg).status = c := rfl

theorem isdir_of_resolve_dir {root : FSNode} {t : TPath} {es}
    (h : root.resolve t.words = some (.dir es)) : isdir root t = true := by
  unfold isdir
  rw [h]

theorem isdir_false_of_resolve_file {root : FSNode} {t : TPath} {bs}
    (h : root.resolve t.words = some (.file bs)) : isdir root t = false := by
  unfold isdir
  rw [h]

theorem isdir_false_of_resolve_none {root : FSNode} {t : TPath}
    (h : root.resolve t.words = none) : isdir root t = false := by
  unfold isdir
  rw [h]

theorem isdir_resolve {root : FSNode} {t : TPath} (h : isdir root t = true) :
    ∃ es, root.resolve t.words = some (.dir es) := by
  unfold isdir at h
  cases hres : root.resolve t.words with
  | none => rw [hres] at h; simp at h
  | some n =>
    cases n with
    | file bs => rw [hres] at h; simp at h
    | dir es => exact ⟨es, rfl⟩

/-- `openFile` inverted. -/
theorem openFile_eq_some {root : FSNode} {t : TPath} {bs : List Nat} :
    openFile root t = some bs ↔
      t.trailing = false ∧ root.resolve t.words = some (.file bs) := by
  unfold openFile
  cases htr : t.trailing with
  | true => simp
  | false =>
    simp only [Bool.false_ne_true, if_neg]
    cases hres : root.resolve t.words with
    | none => simp
    | some n => cases n <;> simp

theorem listdir_of_resolve {root : FSNode} {t : TPath} {es}
    (h : root.resolve t.words = some (.dir es)) : listdir root t = some es := by
  unfold listdir
  rw [h]

/-! Dispatch lemmas for the four control-flow branches of `send_head`. -/

theorem send_head_of_not_dir {mg root m p}
    (h : isdir root (translate_path p) = false) :
    send_head mg root m p = serveFileTail mg root (translate_path p) m := by
  simp [send_head, h]

theorem send_head_redirect {mg root m p}
    (hd : isdir root (translate_path p) = true)
    (hs : endsWithChar '/' (urlsplit p.data).path = false) :
    send_head mg root m p =
      { status := 301
        headers := [("Location",
            String.mk (urlunsplit
              { urlsplit p.data with path := (urlsplit p.data).path ++ ['/'] })),
          ("Content-Length", "0")]
        body := [] } := by
  simp [send_head, hd, hs]

theorem send_head_index {mg root m p idx}
    (hd : isdir root (translate_path p) = true)
    (hs : endsWithChar '/' (urlsplit p.data).path = true)
    (hfi : findIndexFile root (translate_path p) = some idx) :
    send_head mg root m p =
      serveFileTail mg root ⟨(translate_path p).words ++ [idx], false⟩ m := by
  simp [send_head, hd, hs, hfi]

theorem send_head_listing {mg root m p es}
    (hd : isdir root (translate_path p) = true)
    (hs : endsWithChar '/' (urlsplit p.data).path = true)
    (hfi : findIndexFile root (translate_path p) = none)
    (hld : listdir root (translate_path p) = some es) :
    send_head mg root m p = list_directory p es := by
  simp [send_head, hd, hs, hfi, hld]

/-- The happy path of `serveFileTail`. -/
theorem serveFileTail_ok {mg root t m bs}
    (hslash : endsWithChar '/' (osPathStr t) = false)
    (hopen : openFile root t = some bs) :
    serveFileTail mg root t m =
      { status := 200
        headers := [("Content-type", guess_type mg (osPathStr t)),
                    ("Content-Length", toString bs.length)]
        body := bs } := by
  simp [serveFileTail, hslash, hopen]

theorem serveFileTail_slash {mg root t m}
    (hsl : endsWithChar '/' (osPathStr t) = true) :
    serveFileTail mg root t m = send_error m 404 (some "File not found") := by
  simp [serveFileTail, hsl]

theorem serveFileTail_open_fail {mg root t m}
    (hsl : endsWithChar '/' (osPathStr t) = false)
    (hop : openFile root t = none) :
    serveFileTail mg root t m = send_error m 404 (some "File not found") := by
  simp [serveFileTail, hsl, hop]

/-- A 200 out of `serveFileTail` can only come from a successful `open`. -/
theorem serveFileTail_200_inv {mg root t m}
    (h : (serveFileTail mg root t m).status = 200) :
    ∃ bs, openFile root t = some bs ∧ (serveFileTail mg root t m).body = bs := by
  cases hsl : endsWithChar '/' (osPathStr t) with
  | true =>
    rw [serveFileTail_slash hsl] at h
    simp [send_error_status] at h
  | false =>
    cases hop : openFile root t with
    | none =>
      rw [serveFileTail_open_fail hsl hop] at h
      simp [send_error_status] at h
    | some bs =>
      exact ⟨bs, rfl, by rw [serveFileTail_ok hsl hop]⟩

theorem mem_insSorted (x y : List Char) (l : List (List Char)) :
    y ∈ insSorted x l ↔ y = x ∨ y ∈ l := by
  induction l with
  | nil => simp [insSorted]
  | cons z zs ih =>
    unfold insSorted
    by_cases hc : sortKeyLe z x = true
    · rw [if_pos hc]
      simp only [List.mem_cons, ih]
      tauto
    · rw [if_neg hc]
      simp [List.mem_cons]

theorem mem_sortNames (y : List Char) (l : List (List Char)) :
    y ∈ sortNames l ↔ y ∈ l := by
  induction l with
  | nil => simp [sortNames]
  | cons x xs ih =>
    unfold sortNames
    rw [mem_insSorted]
    simp [ih]

theorem originPath_head {p : String} (h : OriginPath p) :
    ∃ rest, p.data = '/' :: rest := by
  obtain ⟨h1, -, -⟩ := h
  cases hd : p.data with
  | nil => rw [hd] at h1; simp at h1
  | cons c rest =>
    rw [hd] at h1
    simp at h1
    exact ⟨rest, by rw [h1]⟩

theorem urlsplit_origin {p : String} (h : OriginPath p) :
    urlsplit p.data = ⟨[], [], p.data, [], []⟩ := by
  obtain ⟨h1, h2, h3⟩ := h
  have hfilter : p.data.filter (fun c => !removedUrlChar c) = p.data :=
    filter_eq_self_of_all (fun c hc => by simp [(h3 c hc).2.2.2])
  have hcolon : ':' ∉ p.data := fun hmem => (h3 ':' hmem).1 rfl
  have hq : '?' ∉ p.data := fun hmem => (h3 '?' hmem).2.1 rfl
  have hh : '#' ∉ p.data := fun hmem => (h3 '#' hmem).2.2.1 rfl
  simp only [urlsplit, hfilter, findIdxQ_colon_none hcolon]
  rw [if_neg h2]
  simp only [takeBefore_eq_self hh, dropThrough_eq_nil hh,
    takeBefore_eq_self hq, dropThrough_eq_nil hq]

/-- `urlunsplit` on a bare path (empty scheme, netloc, query, fragment). -/
theorem urlunsplit_plain (path : List Char) :
    urlunsplit ⟨[], [], path, [], []⟩ = path := by
  simp [urlunsplit]

/-! ### The claims -/

/-- C1: for every regular file F under the serving root, a GET request whose
path resolves to F returns status 200 with a body byte-for-byte identical to
F's on-disk contents, a `Content-type` inferred from the file's extension
(`guess_type`, which falls back to the generic binary type
`application/octet-stream` when every extension lookup misses), and a
`Content-Length` exactly equal to F's byte count. -/
theorem C1_file_request_serves_exact_bytes
    (mg : List Char → Option String) (root : FSNode) (p : String) (bs : List Nat)
    (hres : root.resolve (translate_path p).words = some (.file bs))
    (htr : (translate_path p).trailing = false) :
    do_GET mg root p =
      { status := 200
        headers := [("Content-type", guess_type mg (osPathStr (translate_path p))),
                    ("Content-Length", toString bs.length)]
        body := bs }
    ∧ (∀ q : List Char,
        assocLookup (splitextExt q) extensions_map = none →
        assocLookup (lowerChars (splitextExt q)) extensions_map = none →
        mg q = none →
        guess_type mg q = "application/octet-stream") := by
  constructor
  · have hslash := osPathStr_no_slash htr (translate_words_simple p)
    have hopen : openFile root (translate_path p) = some bs :=
      openFile_eq_some.mpr ⟨htr, hres⟩
    unfold do_GET
    rw [send_head_of_not_dir (isdir_false_of_resolve_file hres)]
    exact serveFileTail_ok hslash hopen
  · intro q h1 h2 h3
    simp [guess_type, h1, h2, h3]

/-- Witness for C1: `GET /a.txt` on the demo root serves the two bytes of
`a.txt` with their exact length. -/
theorem C1_witness :
    do_GET mimeNone fsDemo "/a.txt" =
      { status := 200
        headers := [("Content-type", guess_type mimeNone (osPathStr (translate_path "/a.txt"))),
                    ("Content-Length", toString ([104, 105] : List Nat).length)]
        body := [104, 105] } :=
  (C1_file_request_serves_exact_bytes mimeNone fsDemo "/a.txt" [104, 105] rfl rfl).1

/-- C2 counterexample: the request path `/../index.html` resolves above the
serving root, yet the server does not answer with an error status — it
answers 200 (the `..` segment is silently neutralized and the root's own
`index.html` is served). -/
theorem C2_counterexample :
    (do_GET mimeNone fsDemo "/../index.html").status = 200 := by decide

/-- C2 (amended): the server never reads outside the serving root.
`translate_path` reduces every request path to plain components (no empty
component, no `.`, no `..`, no `/`), and every 200 body is either the
contents of a file reached from the root by plain components only, or a
listing generated for a directory reached the same way.  Traversal attempts
are neutralized rather than rejected: they are answered from inside the
root (with 200 when the sanitized path exists, else 404), not with a
dedicated error status. -/
theorem C2_traversal_never_escapes_root
    (mg : List Char → Option String) (root : FSNode) (p : String) :
    (∀ w ∈ (translate_path p).words, w ≠ [] ∧ isSimpleComponent w = true)
    ∧ ((do_GET mg root p).status = 200 →
        (∃ ws bs, (∀ w ∈ ws, isSimpleComponent w = true)
            ∧ root.resolve ws = some (.file bs) ∧ (do_GET mg root p).body = bs)
        ∨ (∃ es, root.resolve (translate_path p).words = some (.dir es)
            ∧ (do_GET mg root p).body = listingBody p es)) := by
  refine ⟨translate_words_simple p, fun h200 => ?_⟩
  unfold do_GET at h200 ⊢
  cases hd : isdir root (translate_path p) with
  | false =>
    rw [send_head_of_not_dir hd] at h200 ⊢
    obtain ⟨bs, hop, hbody⟩ := serveFileTail_200_inv h200
    obtain ⟨htr, hresf⟩ := openFile_eq_some.mp hop
    exact Or.inl ⟨(translate_path p).words, bs,
      fun w hw => (translate_words_simple p w hw).2, hresf, hbody⟩
  | true =>
    obtain ⟨es, hres⟩ := isdir_resolve hd
    cases hs : endsWithChar '/' (urlsplit p.data).path with
    | false =>
      rw [send_head_redirect hd hs] at h200
      simp at h200
    | true =>
      cases hfi : findIndexFile root (translate_path p) with
      | some idx =>
        rw [send_head_index hd hs hfi] at h200 ⊢
        obtain ⟨bs, hop, hbody⟩ := serveFileTail_200_inv h200
        obtain ⟨-, hresf⟩ := openFile_eq_some.mp hop
        refine Or.inl ⟨(translate_path p).words ++ [idx], bs, ?_, hresf, hbody⟩
        intro w hw
        rcases List.mem_append.mp hw with h1 | h2
        · exact (translate_words_simple p w h1).2
        · have hw' : w = idx := by simpa using h2
          have hidx : idx ∈ indexCandidates := List.mem_of_find?_eq_some hfi
          subst hw'
          simp only [indexCandidates, List.mem_cons, List.mem_singleton] at hidx
          rcases hidx with h | h | h
          · subst h; decide
          · subst h; decide
          · cases h
      | none =>
        have hld := listdir_of_resolve hres
        rw [send_head_listing hd hs hfi hld] at h200 ⊢
        exact Or.inr ⟨es, hres, rfl⟩

/-- Witness for C2 (amended) at the traversal request `/../index.html`. -/
theorem C2_witness :
    ∀ w ∈ (translate_path "/../index.html").words, w ≠ [] ∧ isSimpleComponent w = true :=
  (C2_traversal_never_escapes_root mimeNone fsDemo "/../index.html").1

/-- C3: a GET request for a path that resolves to no existing file or
directory under the serving root returns status 404 with the minimal HTML
error body (`DEFAULT_ERROR_MESSAGE` instantiated with
`404 / File not found / Nothing matches the given URI`). -/
theorem C3_missing_path_404
    (mg : List Char → Option String) (root : FSNode) (p : String)
    (h : root.resolve (translate_path p).words = none) :
    (do_GET mg root p).status = 404
    ∧ (do_GET mg root p).body =
        encodeStr (errorBodyHtml 404 "File not found" "Nothing matches the given URI") := by
  have hall : do_GET mg root p = send_error "GET" 404 (some "File not found") := by
    unfold do_GET
    rw [send_head_of_not_dir (isdir_false_of_resolve_none h)]
    cases hsl : endsWithChar '/' (osPathStr (translate_path p)) with
    | true => exact serveFileTail_slash hsl
    | false =>
      refine serveFileTail_open_fail hsl ?_
      unfold openFile
      rw [h]
      cases (translate_path p).trailing <;> simp
  rw [hall]
  exact ⟨rfl, rfl⟩

/-- Witness for C3 at `GET /nofile`. -/
theorem C3_witness :
    (do_GET mimeNone fsDemo "/nofile").status = 404
    ∧ (do_GET mimeNone fsDemo "/nofile").body =
        encodeStr (errorBodyHtml 404 "File not found" "Nothing matches the given URI") :=
  C3_missing_path_404 mimeNone fsDemo "/nofile" rfl

/-- C4 counterexample: `sub` is a directory under the demo root, but
`GET /sub` (no trailing slash) answers 301, not 200. -/
theorem C4_counterexample :
    (do_GET mimeNone fsDemo "/sub").status ≠ 200 := by decide

/-- C4 (amended): for a directory D under the serving root, a GET request
for D's path *in its trailing-slash form* returns status 200 — with the
contents of D's `index.html` when that entry is a regular file, and
otherwise (no index file found) with a generated HTML listing whose lines
include one `<li>` entry per immediate entry of D.  (The slash-less form of
the same path is answered with a 301 redirect instead; see the
counterexample.) -/
theorem C4_dir_index_or_listing
    (mg : List Char → Option String) (root : FSNode) (p : String)
    (es : List (List Char × FSNode)) (hp : OriginPath p)
    (hs : endsWithChar '/' p.data = true)
    (hres : root.resolve (translate_path p).words = some (.dir es)) :
    (∀ bs, lookupName "index.html".data es = some (.file bs) →
        (do_GET mg root p).status = 200 ∧ (do_GET mg root p).body = bs)
    ∧ (findIndexFile root (translate_path p) = none →
        (do_GET mg root p).status = 200
        ∧ (do_GET mg root p).body = listingBody p es
        ∧ ∀ name ∈ es.map Prod.fst, entryLine es name ∈ listingLines p es) := by
  have hd := isdir_of_resolve_dir hres
  have hus := urlsplit_origin hp
  have hs' : endsWithChar '/' (urlsplit p.data).path = true := by rw [hus]; exact hs
  constructor
  · intro bs hlook
    have hresIdx : root.resolve ((translate_path p).words ++ ["index.html".data])
        = some (.file bs) := by
      rw [FSNode.resolve_append, hres]
      simp [FSNode.resolve, hlook]
    have hisf : isfile root ⟨(translate_path p).words ++ ["index.html".data], false⟩ = true := by
      unfold isfile
      rw [hresIdx]
      simp
    have hfi : findIndexFile root (translate_path p) = some ("index.html".data) := by
      unfold findIndexFile indexCandidates
      exact List.find?_cons_of_pos _ hisf
    unfold do_GET
    rw [send_head_index hd hs' hfi]
    have hsimple : ∀ w ∈ (translate_path p).words ++ ["index.html".data],
        w ≠ [] ∧ isSimpleComponent w = true := by
      intro w hw
      rcases List.mem_append.mp hw with h1 | h2
      · exact translate_words_simple p w h1
      · have hw' : w = "index.html".data := by simpa using h2
        subst hw'
        exact ⟨by decide, by decide⟩
    have hslash :
        endsWithChar '/' (osPathStr ⟨(translate_path p).words ++ ["index.html".data], false⟩)
          = false := osPathStr_no_slash rfl hsimple
    have hopen : openFile root ⟨(translate_path p).words ++ ["index.html".data], false⟩
        = some bs := openFile_eq_some.mpr ⟨rfl, hresIdx⟩
    rw [serveFileTail_ok hslash hopen]
    exact ⟨rfl, rfl⟩
  · intro hfi
    have hld := listdir_of_resolve hres
    unfold do_GET
    rw [send_head_listing hd hs' hfi hld]
    refine ⟨rfl, rfl, ?_⟩
    intro name hname
    have h1 : name ∈ sortNames (es.map Prod.fst) := (mem_sortNames _ _).mpr hname
    have h2 : entryLine es name ∈ (sortNames (es.map Prod.fst)).map (entryLine es) :=
      List.mem_map_of_mem _ h1
    simp only [listingLines, List.mem_append]
    exact Or.inl (Or.inr h2)

/-- Witness for C4 (amended): `GET /pub/` serves the bytes of
`pub/index.html`. -/
theorem C4_witness :
    (do_GET mimeNone fsDemo "/pub/").status = 200
    ∧ (do_GET mimeNone fsDemo "/pub/").body = [60, 105, 62] :=
  (C4_dir_index_or_listing mimeNone fsDemo "/pub/"
      [("index.html".data, .file [60, 105, 62])]
      (by decide) rfl rfl).1 [60, 105, 62] rfl

/-- C9: a GET request for an existing directory's path without the trailing
slash is answered 301 with `Location` equal to the same path with `/`
appended, and a 200 for a directory resolution can only arise when the
URL path component ends in `/`. -/
theorem C9_dir_redirect_slash
    (mg : List Char → Option String) (root : FSNode) (p : String)
    (es : List (List Char × FSNode)) (hp : OriginPath p)
    (hns : endsWithChar '/' p.data = false)
    (hres : root.resolve (translate_path p).words = some (.dir es)) :
    do_GET mg root p =
      { status := 301
        headers := [("Location", String.mk (p.data ++ ['/'])), ("Content-Length", "0")]
        body := [] }
    ∧ (∀ (q : String) (es' : List (List Char × FSNode)),
        root.resolve (translate_path q).words = some (.dir es') →
        (do_GET mg root q).status = 200 →
        endsWithChar '/' (urlsplit q.data).path = true) := by
  constructor
  · have hd := isdir_of_resolve_dir hres
    have hus := urlsplit_origin hp
    have hs : endsWithChar '/' (urlsplit p.data).path = false := by rw [hus]; exact hns
    unfold do_GET
    rw [send_head_redirect hd hs, hus]
    rw [show ((⟨[], [], p.data, [], []⟩ : UrlParts).path) = p.data from rfl]
    rw [show ({ (⟨[], [], p.data, [], []⟩ : UrlParts) with path := p.data ++ ['/'] })
          = (⟨[], [], p.data ++ ['/'], [], []⟩ : UrlParts) from rfl]
    rw [urlunsplit_plain]
  · intro q es' hres' h200
    cases hx : endsWithChar '/' (urlsplit q.data).path with
    | true => rfl
    | false =>
      have hd := isdir_of_resolve_dir hres'
      unfold do_GET at h200
      rw [send_head_redirect hd hx] at h200
      simp at h200

/-- Witness for C9 at `GET /sub`. -/
theorem C9_witness :
    do_GET mimeNone fsDemo "/sub" =
      { status := 301
        headers := [("Location", String.mk ("/sub".data ++ ['/'])), ("Content-Length", "0")]
        body := [] } :=
  (C9_dir_redirect_slash mimeNone fsDemo "/sub" [] (by decide) rfl rfl).1

/-! ### Query/fragment stripping (for C10) -/

theorem takeBefore_cons_ne {c c' : Char} (h : c' ≠ c) (r : List Char) :
    takeBefore c (c' :: r) = c' :: takeBefore c r := by
  simp [takeBefore, List.takeWhile_cons, h]

theorem stripQueryFrag_eq_self {p : List Char} (hq : '?' ∉ p) (hh : '#' ∉ p) :
    stripQueryFrag p = p := by
  unfold stripQueryFrag
  rw [takeBefore_eq_self hq, takeBefore_eq_self hh]

/-- Appending a `?query` or `#fragment` suffix to a clean path does not
change the result of the query/fragment strip. -/
theorem stripQueryFrag_append {p sfx : List Char}
    (hq : '?' ∉ p) (hh : '#' ∉ p)
    (hsfx : sfx.head? = some '?' ∨ sfx.head? = some '#') :
    stripQueryFrag (p ++ sfx) = stripQueryFrag p := by
  rw [stripQueryFrag_eq_self hq hh]
  rcases hsfx with h | h
  · obtain ⟨t, ht⟩ : ∃ t, sfx = '?' :: t := by
      cases hx : sfx with
      | nil => rw [hx] at h; simp at h
      | cons a b => rw [hx] at h; simp at h; exact ⟨b, by rw [h]⟩
    subst ht
    unfold stripQueryFrag
    rw [takeBefore_append hq, takeBefore_cons_self, List.append_nil,
      takeBefore_eq_self hh]
  · obtain ⟨t, ht⟩ : ∃ t, sfx = '#' :: t := by
      cases hx : sfx with
      | nil => rw [hx] at h; simp at h
      | cons a b => rw [hx] at h; simp at h; exact ⟨b, by rw [h]⟩
    subst ht
    unfold stripQueryFrag
    rw [takeBefore_append hq, takeBefore_cons_ne (by decide),
      takeBefore_append hh, takeBefore_cons_self, List.append_nil]

theorem translate_path_append {p sfx : String}
    (hq : '?' ∉ p.data) (hh : '#' ∉ p.data)
    (hsfx : sfx.data.head? = some '?' ∨ sfx.data.head? = some '#') :
    translate_path (p ++ sfx) = translate_path p := by
  unfold translate_path
  rw [show (p ++ sfx).data = p.data ++ sfx.data from rfl,
    stripQueryFrag_append hq hh hsfx]

theorem take2_cons_cons (a b : Char) (l : List Char) :
    (a :: b :: l).take 2 = [a, b] := rfl

/-- The fragment-then-query strip of `urlsplit` on a clean path with a
`?`- or `#`-led suffix recovers the path. -/
theorem split_fq_path {pd : List Char} (hq : '?' ∉ pd) (hh : '#' ∉ pd)
    {hc : Char} (hcq : hc = '?' ∨ hc = '#') (X : List Char) :
    takeBefore '?' (takeBefore '#' (pd ++ hc :: X)) = pd := by
  rcases hcq with h | h <;> subst h
  · rw [takeBefore_append hh, takeBefore_cons_ne (by decide),
      show pd ++ '?' :: takeBefore '#' X = pd ++ ('?' :: takeBefore '#' X) from rfl,
      takeBefore_append hq, takeBefore_cons_self, List.append_nil]
  · rw [takeBefore_append hh, takeBefore_cons_self, List.append_nil,
      takeBefore_eq_self hq]

theorem urlsplit_path_append {p sfx : String} (hp : OriginPath p)
    (hsfx : sfx.data.head? = some '?' ∨ sfx.data.head? = some '#') :
    (urlsplit (p ++ sfx).data).path = p.data := by
  obtain ⟨htake1, htake2, h3⟩ := hp
  obtain ⟨rest, hrest⟩ := originPath_head ⟨htake1, htake2, h3⟩
  have hq : '?' ∉ p.data := fun hm => (h3 _ hm).2.1 rfl
  have hh : '#' ∉ p.data := fun hm => (h3 _ hm).2.2.1 rfl
  have hfp : p.data.filter (fun c => !removedUrlChar c) = p.data :=
    filter_eq_self_of_all (fun c hc => by simp [(h3 c hc).2.2.2])
  obtain ⟨hc, t, hsd, hcq⟩ : ∃ hc t, sfx.data = hc :: t ∧ (hc = '?' ∨ hc = '#') := by
    rcases hsfx with h | h
    · cases hx : sfx.data with
      | nil => rw [hx] at h; simp at h
      | cons a b => rw [hx] at h; simp at h; exact ⟨a, b, rfl, Or.inl h⟩
    · cases hx : sfx.data with
      | nil => rw [hx] at h; simp at h
      | cons a b => rw [hx] at h; simp at h; exact ⟨a, b, rfl, Or.inr h⟩
  have hcnr : (!removedUrlChar hc) = true := by
    rcases hcq with h | h <;> subst h <;> decide
  have hfilter : ((p ++ sfx).data).filter (fun c => !removedUrlChar c)
      = p.data ++ hc :: t.filter (fun c => !removedUrlChar c) := by
    rw [show (p ++ sfx).data = p.data ++ sfx.data from rfl, List.filter_append,
      hfp, hsd, List.filter_cons, if_pos hcnr]
  set ft := t.filter (fun c => !removedUrlChar c) with hft
  have hne : hc ≠ '/' := by rcases hcq with h | h <;> subst h <;> decide
  have hhead : (p.data ++ hc :: ft).headD ' ' = '/' := by rw [hrest]; rfl
  have htk2 : ¬((p.data ++ hc :: ft).take 2 = ['/', '/']) := by
    rw [hrest]
    cases rest with
    | nil =>
      rw [List.cons_append, List.nil_append, take2_cons_cons]
      simp [hne]
    | cons c2 r2 =>
      rw [List.cons_append, List.cons_append, take2_cons_cons]
      have := htake2
      rw [hrest, take2_cons_cons] at this
      exact this
  have hpath : takeBefore '?' (takeBefore '#' (p.data ++ hc :: ft)) = p.data :=
    split_fq_path hq hh hcq ft
  rw [show (urlsplit (p ++ sfx).data).path
      = (urlsplit (p.data ++ sfx.data)).path from rfl]
  cases hfind : (p.data ++ hc :: ft).findIdx? (· == ':') with
  | none =>
    simp only [urlsplit, show (p.data ++ sfx.data).filter (fun c => !removedUrlChar c)
        = p.data ++ hc :: ft from hfilter, hfind, if_neg htk2]
    exact hpath
  | some i =>
    have hcond : ¬(0 < i ∧ ((p.data ++ hc :: ft).headD ' ').isAlpha
        ∧ ((p.data ++ hc :: ft).take i).all schemeCharOk) := by
      rw [hhead]
      rintro ⟨-, habs, -⟩
      exact absurd habs (by decide)
    simp only [urlsplit, show (p.data ++ sfx.data).filter (fun c => !removedUrlChar c)
        = p.data ++ hc :: ft from hfilter, hfind, if_neg hcond, if_neg htk2]
    exact hpath

/-- C10 counterexample: on a root directory with no index file, `GET /?q`
and `GET /` both produce a 200 listing, but the bodies differ — the
listing title embeds the raw request path, query string included. -/
theorem C10_counterexample :
    (do_GET mimeNone (.dir []) "/?q").body ≠ (do_GET mimeNone (.dir []) "/").body := by
  decide

/-- C10 (amended): query strings and fragments are stripped before path
resolution — a `?query`/`#fragment` suffix leaves `translate_path` and the
response status unchanged, and leaves the body unchanged except in the
directory-listing case, where the generated page embeds the raw request
path (suffix included) in its title. -/
theorem C10_query_fragment_stripped
    (mg : List Char → Option String) (root : FSNode) (p sfx : String)
    (hp : OriginPath p)
    (hsfx : sfx.data.head? = some '?' ∨ sfx.data.head? = some '#') :
    translate_path (p ++ sfx) = translate_path p
    ∧ (do_GET mg root (p ++ sfx)).status = (do_GET mg root p).status
    ∧ (¬(isdir root (translate_path p) = true
          ∧ endsWithChar '/' p.data = true
          ∧ findIndexFile root (translate_path p) = none) →
        (do_GET mg root (p ++ sfx)).body = (do_GET mg root p).body) := by
  have hq : '?' ∉ p.data := fun hm => (hp.2.2 _ hm).2.1 rfl
  have hh : '#' ∉ p.data := fun hm => (hp.2.2 _ hm).2.2.1 rfl
  have htp := translate_path_append hq hh hsfx
  have hup := urlsplit_path_append hp hsfx
  have huo := urlsplit_origin hp
  have hslashEq : endsWithChar '/' (urlsplit (p ++ sfx).data).path
      = endsWithChar '/' p.data := by rw [hup]
  have hslashP : endsWithChar '/' (urlsplit p.data).path
      = endsWithChar '/' p.data := by rw [huo]
  have master :
      (do_GET mg root (p ++ sfx) = do_GET mg root p)
      ∨ ((do_GET mg root (p ++ sfx)).status = 301 ∧ (do_GET mg root p).status = 301
          ∧ (do_GET mg root (p ++ sfx)).body = [] ∧ (do_GET mg root p).body = [])
      ∨ (∃ es, root.resolve (translate_path p).words = some (.dir es)
          ∧ endsWithChar '/' p.data = true
          ∧ findIndexFile root (translate_path p) = none
          ∧ do_GET mg root (p ++ sfx) = list_directory (p ++ sfx) es
          ∧ do_GET mg root p = list_directory p es) := by
    cases hd : isdir root (translate_path p) with
    | false =>
      left
      unfold do_GET
      rw [send_head_of_not_dir hd, send_head_of_not_dir (by rw [htp]; exact hd), htp]
    | true =>
      obtain ⟨es, hres⟩ := isdir_resolve hd
      have hd' : isdir root (translate_path (p ++ sfx)) = true := by rw [htp]; exact hd
      cases hs : endsWithChar '/' p.data with
      | false =>
        right; left
        have h1 : endsWithChar '/' (urlsplit (p ++ sfx).data).path = false := by
          rw [hslashEq]; exact hs
        have h2 : endsWithChar '/' (urlsplit p.data).path = false := by
          rw [hslashP]; exact hs
        unfold do_GET
        rw [send_head_redirect hd' h1, send_head_redirect hd h2]
        exact ⟨rfl, rfl, rfl, rfl⟩
      | true =>
        have h1 : endsWithChar '/' (urlsplit (p ++ sfx).data).path = true := by
          rw [hslashEq]; exact hs
        have h2 : endsWithChar '/' (urlsplit p.data).path = true := by
          rw [hslashP]; exact hs
        cases hfi : findIndexFile root (translate_path p) with
        | some idx =>
          left
          have hfi' : findIndexFile root (translate_path (p ++ sfx)) = some idx := by
            rw [htp]; exact hfi
          unfold do_GET
          rw [send_head_index hd' h1 hfi', send_head_index hd h2 hfi, htp]
        | none =>
          right; right
          have hfi' : findIndexFile root (translate_path (p ++ sfx)) = none := by
            rw [htp]; exact hfi
          have hld := listdir_of_resolve hres
          have hld' : listdir root (translate_path (p ++ sfx)) = some es := by
            rw [htp]; exact hld
          refine ⟨es, hres, rfl, rfl, ?_, ?_⟩
          · unfold do_GET
            rw [send_head_listing hd' h1 hfi' hld']
          · unfold do_GET
            rw [send_head_listing hd h2 hfi hld]
  refine ⟨htp, ?_, ?_⟩
  · rcases master with heq | ⟨hs1, hs2, -, -⟩ | ⟨es, -, -, -, he1, he2⟩
    · rw [heq]
    · rw [hs1, hs2]
    · rw [he1, he2]; rfl
  · intro hnl
    rcases master with heq | ⟨-, -, hb1, hb2⟩ | ⟨es, hres, hs, hfi, -, -⟩
    · rw [heq]
    · rw [hb1, hb2]
    · exact absurd ⟨isdir_of_resolve_dir hres, hs, hfi⟩ hnl

/-- Witness for C10 (amended): appending `?v=1` to `/a.txt` changes neither
the resolved path nor the status. -/
theorem C10_witness :
    translate_path ("/a.txt" ++ "?v=1") = translate_path "/a.txt"
    ∧ (do_GET mimeNone fsDemo ("/a.txt" ++ "?v=1")).status
        = (do_GET mimeNone fsDemo "/a.txt").status :=
  ⟨(C10_query_fragment_stripped mimeNone fsDemo "/a.txt" "?v=1" (by decide) (Or.inl rfl)).1,
   (C10_query_fragment_stripped mimeNone fsDemo "/a.txt" "?v=1" (by decide) (Or.inl rfl)).2.1⟩

/-! ### Helper lemmas: statuses and the main model -/

theorem serveFileTail_status_mem (mg : List Char → Option String)
    (root : FSNode) (t : TPath) (m : String) :
    (serveFileTail mg root t m).status ∈ ([200, 301, 404] : List Nat) := by
  cases hsl : endsWithChar '/' (osPathStr t) with
  | true => rw [serveFileTail_slash hsl]; simp [send_error_status]
  | false =>
    cases hop : openFile root t with
    | none => rw [serveFileTail_open_fail hsl hop]; simp [send_error_status]
    | some bs => rw [serveFileTail_ok hsl hop]; simp

theorem send_head_status_mem (mg : List Char → Option String)
    (root : FSNode) (m p : String) :
    (send_head mg root m p).status ∈ ([200, 301, 404] : List Nat) := by
  cases hd : isdir root (translate_path p) with
  | false =>
    rw [send_head_of_not_dir hd]
    exact serveFileTail_status_mem mg root (translate_path p) m
  | true =>
    cases hs : endsWithChar '/' (urlsplit p.data).path with
    | false => rw [send_head_redirect hd hs]; simp
    | true =>
      cases hfi : findIndexFile root (translate_path p) with
      | some idx =>
        rw [send_head_index hd hs hfi]
        exact serveFileTail_status_mem mg root _ m
      | none =>
        obtain ⟨es, hres⟩ := isdir_resolve hd
        rw [send_head_listing hd hs hfi (listdir_of_resolve hres)]
        simp [list_directory]

/-- Every request is answered with one of the handler's HTTP statuses;
request handling is total, so no per-request condition can stop serving. -/
theorem handleRequest_status_mem (mg : List Char → Option String)
    (root : FSNode) (req : Request) :
    (handleRequest mg root req).status ∈ ([200, 301, 404, 501] : List Nat) := by
  unfold handleRequest
  by_cases hg : req.method = "GET"
  · rw [if_pos hg]
    have := send_head_status_mem mg root "GET" req.path
    unfold do_GET
    simp only [List.mem_cons, List.mem_singleton] at this ⊢
    tauto
  · rw [if_neg hg]
    by_cases hhd : req.method = "HEAD"
    · rw [if_pos hhd]
      have := send_head_status_mem mg root "HEAD" req.path
      unfold do_HEAD
      simp only [List.mem_cons, List.mem_singleton] at this ⊢
      tauto
    · rw [if_neg hhd]
      simp [send_error_status]

theorem tryOpenBrowser_eq (env : Env) (url : String) :
    tryOpenBrowser env url = [.evBrowserOpen url] := by
  unfold tryOpenBrowser
  cases env.browserError <;> rfl

theorem mainRun_ok {env : Env} (hb : env.bindError = none) :
    mainRun env =
      ([.evGetcwd env.cwd, .evBind HOST PORT,
        .evPrint ("Serving '" ++ env.cwd ++ "' at "
          ++ ("http://" ++ HOST ++ ":" ++ toString PORT ++ "/")),
        .evBrowserOpen ("http://" ++ HOST ++ ":" ++ toString PORT ++ "/"),
        .evServeForever], .serving) := by
  unfold mainRun bindListener
  rw [hb]
  simp [tryOpenBrowser_eq]

theorem mainRun_fail {env : Env} {e : String} (hb : env.bindError = some e) :
    mainRun env =
      ([.evGetcwd env.cwd, .evBind HOST PORT, .evServerClose],
       .fatal 1 ("Traceback: OSError: " ++ e)) := by
  unfold mainRun bindListener
  rw [hb]

theorem string_append_ne_empty (a : String) (e : String)
    (ha : a.data ≠ []) : a ++ e ≠ "" := by
  intro hcon
  have hd : (a ++ e).data = [] := by rw [hcon]
  rw [show (a ++ e).data = a.data ++ e.data from rfl] at hd
  exact ha (List.append_eq_nil.mp hd).1

/-! ### The main-program claims -/

/-- C5: a bind failure is fatal — the run ends with exit status 1 (non-zero)
and a diagnostic, the listener is closed and serving is never entered, with
no retry (one bind step in the trace); conversely the run reaches serving
exactly when the bind succeeded, and request handling is total with every
response carrying one of the handler's HTTP statuses, so per-request errors
degrade to HTTP error responses while serving continues. -/
theorem C5_bind_failure_fatal (env : Env) :
    (∀ e, env.bindError = some e →
        (mainRun env).2 = .fatal 1 ("Traceback: OSError: " ++ e)
        ∧ (mainRun env).1 = [.evGetcwd env.cwd, .evBind HOST PORT, .evServerClose]
        ∧ Event.evServeForever ∉ (mainRun env).1)
    ∧ ((mainRun env).2 = .serving ↔ env.bindError = none)
    ∧ (∀ c d, (mainRun env).2 = .fatal c d → c ≠ 0 ∧ d ≠ "")
    ∧ (∀ (mg : List Char → Option String) (root : FSNode) (reqs : List Request),
        (serveRequests mg root reqs).length = reqs.length
        ∧ ∀ r ∈ serveRequests mg root reqs, r.status ∈ ([200, 301, 404, 501] : List Nat)) := by
  refine ⟨?_, ?_, ?_, ?_⟩
  · intro e hb
    rw [mainRun_fail hb]
    exact ⟨rfl, rfl, by simp⟩
  · constructor
    · intro hserv
      cases hb : env.bindError with
      | none => rfl
      | some e => rw [mainRun_fail hb] at hserv; cases hserv
    · intro hb
      rw [mainRun_ok hb]
  · intro c d hfat
    cases hb : env.bindError with
    | none => rw [mainRun_ok hb] at hfat; cases hfat
    | some e =>
      rw [mainRun_fail hb] at hfat
      have hc : c = 1 := by cases hfat; rfl
      have hd : d = "Traceback: OSError: " ++ e := by cases hfat; rfl
      subst hc hd
      exact ⟨by decide, string_append_ne_empty _ e (by decide)⟩
  · intro mg root reqs
    refine ⟨by simp [serveRequests], ?_⟩
    intro r hr
    obtain ⟨req, -, hreq⟩ := List.mem_map.mp hr
    rw [← hreq]
    exact handleRequest_status_mem mg root req

/-- Witness for C5 at an occupied-port environment. -/
theorem C5_witness :
    (mainRun ⟨"/w", some "[Errno 98] Address already in use", none⟩).2
      = .fatal 1 ("Traceback: OSError: " ++ "[Errno 98] Address already in use") :=
  ((C5_bind_failure_fatal ⟨"/w", some "[Errno 98] Address already in use", none⟩).1
    "[Errno 98] Address already in use" rfl).1

/-- C6: whatever the browser-launch outcome (success or any raised error),
the error is discarded, the program continues into serving, and the whole
run — exit outcome, trace, and every subsequent response — is independent
of the launch outcome. -/
theorem C6_browser_failure_suppressed (env env' : Env)
    (hcwd : env'.cwd = env.cwd)
    (hb : env.bindError = none) (hb' : env'.bindError = none) :
    (mainRun env).2 = .serving
    ∧ (mainRun env).1.getLast? = some .evServeForever
    ∧ (∀ (mg : List Char → Option String) (root : FSNode) (reqs : List Request),
        runProgram env mg root reqs = runProgram env' mg root reqs) := by
  refine ⟨by rw [mainRun_ok hb], by rw [mainRun_ok hb]; rfl, ?_⟩
  intro mg root reqs
  unfold runProgram
  rw [mainRun_ok hb, mainRun_ok hb', hcwd]

/-- Witness for C6: a run whose browser launch raises is still serving. -/
theorem C6_witness :
    (mainRun ⟨"/w", none, some "could not locate runnable browser"⟩).2 = .serving :=
  (C6_browser_failure_suppressed
    ⟨"/w", none, some "could not locate runnable browser"⟩
    ⟨"/w", none, none⟩ rfl rfl rfl).1

/-- C7: on a successful start the trace is exactly: capture the working
directory, bind `127.0.0.1:8000`, print the single serving line naming the
directory and the URL, attempt the browser launch, then serve forever. -/
theorem C7_startup_order (env : Env) (hb : env.bindError = none) :
    (mainRun env).1 =
      [.evGetcwd env.cwd,
       .evBind "127.0.0.1" 8000,
       .evPrint ("Serving '" ++ env.cwd ++ "' at " ++ "http://127.0.0.1:8000/"),
       .evBrowserOpen "http://127.0.0.1:8000/",
       .evServeForever]
    ∧ (mainRun env).1.countP isPrintEvent = 1
    ∧ (mainRun env).2 = .serving := by
  have hurl : "http://" ++ HOST ++ ":" ++ toString PORT ++ "/" = "http://127.0.0.1:8000/" := rfl
  have h := mainRun_ok hb
  rw [hurl] at h
  refine ⟨by rw [h]; rfl, by rw [h]; rfl, by rw [h]⟩

/-- Witness for C7 at a concrete working directory. -/
theorem C7_witness :
    (mainRun ⟨"/home/dev", none, none⟩).1 =
      [.evGetcwd "/home/dev",
       .evBind "127.0.0.1" 8000,
       .evPrint ("Serving '" ++ "/home/dev" ++ "' at " ++ "http://127.0.0.1:8000/"),
       .evBrowserOpen "http://127.0.0.1:8000/",
       .evServeForever] :=
  (C7_startup_order ⟨"/home/dev", none, none⟩ rfl).1

end StaticServer
